import Mathlib

/-!
Verification development for the go-xamarin build orchestration engine
(`builder/builder.go`).

The Go source is embedded shallowly: Go structs become Lean structures, Go
maps that are only iterated or looked up become association lists, the
per-project planning `switch` becomes a `match`, and the two loops of
`BuildAllProjects` become structural recursions that additionally return the
trace of observation-hook calls and of `Run` invocations.  External
collaborators (the `Run` of a command, the filesystem probes of
`CollectOutput`) are parameters.  Helper functions of the repository that
live outside `builder/builder.go` (the `mdtool`/`xbuild` command types,
`isArchitectureArchiveable`, `isPlatformAnyCPU`, `utility.ToConfig`,
`validateSolutionConfig`, command equality) are modelled from the spec; each
such definition says so in its doc comment.
-/

/-- `constants.ProjectType` of the repository. -/
inductive ProjectType
  | IOS
  | TvOS
  | MacOS
  | Android
  | Unknown
deriving DecidableEq

/-- `constants.OutputType` of the repository. -/
inductive OutputType
  | XCArchive
  | IPA
  | DSYM
  | APP
  | PKG
  | APK
deriving DecidableEq

/-- `project.ConfigurationModel`: per-project configuration entry (spec §3
"ProjectConfig"); field names follow their uses in `builder.go`. -/
structure ProjectConfig where
  Configuration : String
  Platform : String
  OutputDir : String
  SignAndroid : Bool
  MtouchArchs : List String
deriving DecidableEq

/-- `project.Model`; field names follow their uses in `builder.go`.  The Go
maps `ConfigMap` and `Configs` are only looked up by key, so they are
embedded as association lists. -/
structure Project where
  Name : String
  Pth : String
  ProjectType : ProjectType
  OutputType : String
  AndroidApplication : Bool
  AssemblyName : String
  ManifestPth : String
  ConfigMap : List (String × String)
  Configs : List (String × ProjectConfig)
deriving DecidableEq

/-- `solution.Model`: a path and the project map (embedded as a list in
iteration order).  `ConfigList` is modelled from the spec: the declared
set of solution configs of the solution, consulted by `validateSolutionConfig`. -/
structure Solution where
  Pth : String
  ConfigList : List String
  ProjectMap : List Project
deriving DecidableEq

/-- `builder.Model`. -/
structure Builder where
  solution : Solution
  projectTypeWhitelist : List ProjectType
  forceMDTool : Bool
deriving DecidableEq

/-- Lookup in an association list (embedding of a Go map read `m[k]`). -/
def lookupAssoc {κ α : Type} [DecidableEq κ] : List (κ × α) → κ → Option α
  | [], _ => none
  | kv :: rest, key => if kv.1 = key then some kv.2 else lookupAssoc rest key

/-- Replace-or-append insertion (embedding of a Go map write `m[k] = v`). -/
def insertAssoc {κ α : Type} [DecidableEq κ] : List (κ × α) → κ → α → List (κ × α)
  | [], key, v => [(key, v)]
  | kv :: rest, key, v => if kv.1 = key then (key, v) :: rest else kv :: insertAssoc rest key v

/-- Modelled from the spec: `utility.ToConfig` is not under `src/`; per spec
§3 the solution configuration key is the fixed composition
`"<Configuration>|<Platform>"`. -/
def ToConfig (configuration platform : String) : String :=
  configuration ++ "|" ++ platform

/-- Modelled from the spec: `isProjectTypeAllowed` is not under `src/`; per
spec §4.1 the whitelist restricts project types, an empty whitelist enforcing
no restriction. -/
def isProjectTypeAllowed (projectType : ProjectType) (whitelist : List ProjectType) : Bool :=
  whitelist.isEmpty || whitelist.any (fun t => decide (t = projectType))

/-- ASCII lowercasing of one character (computable by kernel reduction,
unlike `Char.toLower`). -/
def lowerChar (c : Char) : Char :=
  if c = 'A' then 'a' else if c = 'B' then 'b' else if c = 'C' then 'c'
  else if c = 'D' then 'd' else if c = 'E' then 'e' else if c = 'F' then 'f'
  else if c = 'G' then 'g' else if c = 'H' then 'h' else if c = 'I' then 'i'
  else if c = 'J' then 'j' else if c = 'K' then 'k' else if c = 'L' then 'l'
  else if c = 'M' then 'm' else if c = 'N' then 'n' else if c = 'O' then 'o'
  else if c = 'P' then 'p' else if c = 'Q' then 'q' else if c = 'R' then 'r'
  else if c = 'S' then 's' else if c = 'T' then 't' else if c = 'U' then 'u'
  else if c = 'V' then 'v' else if c = 'W' then 'w' else if c = 'X' then 'x'
  else if c = 'Y' then 'y' else if c = 'Z' then 'z' else c

/-- ASCII lowercasing of a string. -/
def lowerString (s : String) : String :=
  String.mk (s.data.map lowerChar)

/-- Modelled from the spec: the set of simulator-targeting architecture
identifiers is an external constant of the repository not under `src/`;
the spec treats `isArchivable` as an opaque predicate over it. -/
def isSimulatorArchitecture (arch : String) : Bool :=
  lowerString arch == "i386" || lowerString arch == "x86_64"

/-- Modelled from the spec: `isArchitectureArchiveable` is not under `src/`;
per spec §4.2 an architecture list is archivable iff it is non-empty and does
not consist solely of simulator-targeting architecture identifiers. -/
def isArchitectureArchiveable (architectures : List String) : Bool :=
  !architectures.isEmpty && !architectures.all isSimulatorArchitecture

/-- Modelled from the spec: `isPlatformAnyCPU` is not under `src/`; per spec
§4.2 and the glossary, the platform wildcard is the value "AnyCPU" compared
case-insensitively. -/
def isPlatformAnyCPU (platform : String) : Bool :=
  lowerString platform == "anycpu"

/-- Modelled from the spec: `validateSolutionConfig` is not under `src/`; per
spec §7 a requested (configuration, platform) absent entirely from the
declared config set of the solution is a fatal error. -/
def validateSolutionConfig (s : Solution) (configuration platform : String) : Bool :=
  s.ConfigList.any (fun c => c == ToConfig configuration platform)

/-- The two build-tool families (spec §3: "native IDE-tool" = mdtool,
"build-engine" = xbuild). -/
inductive ToolchainKind
  | mdtool
  | xbuild
deriving DecidableEq

/-- Modelled from the spec: the command types of the `mdtool` and `xbuild`
packages are not under `src/`.  Per spec §3 a `BuildCommand` is a target
action bound to a toolchain, a configuration, a platform, an optional project
name, plus the mutable package/archive-on-build markers set by the planner. -/
structure BuildCommand where
  toolchain : ToolchainKind
  pth : String
  target : String
  configuration : String
  platform : Option String
  projectName : Option String
  buildIpa : Bool
  archiveOnBuild : Bool
deriving DecidableEq

/-- `mdtool.New`: fresh native-IDE-tool command on a path. -/
def mdtool.New (pth : String) : BuildCommand :=
  { toolchain := ToolchainKind.mdtool, pth := pth, target := "", configuration := "",
    platform := none, projectName := none, buildIpa := false, archiveOnBuild := false }

/-- `xbuild.New`: fresh build-engine command on a path. -/
def xbuild.New (pth : String) : BuildCommand :=
  { toolchain := ToolchainKind.xbuild, pth := pth, target := "", configuration := "",
    platform := none, projectName := none, buildIpa := false, archiveOnBuild := false }

def BuildCommand.SetTarget (c : BuildCommand) (t : String) : BuildCommand :=
  { c with target := t }

def BuildCommand.SetConfiguration (c : BuildCommand) (conf : String) : BuildCommand :=
  { c with configuration := conf }

def BuildCommand.SetPlatform (c : BuildCommand) (p : String) : BuildCommand :=
  { c with platform := some p }

def BuildCommand.SetProjectName (c : BuildCommand) (n : String) : BuildCommand :=
  { c with projectName := some n }

def BuildCommand.SetBuildIpa (c : BuildCommand) (b : Bool) : BuildCommand :=
  { c with buildIpa := b }

def BuildCommand.SetArchiveOnBuild (c : BuildCommand) (b : Bool) : BuildCommand :=
  { c with archiveOnBuild := b }

/-- Modelled from the spec: command equality lives in the `buildtool` package,
not under `src/`; per spec §3/§9 two commands are equal when their identity
fields (toolchain, target action, configuration, platform, project name)
match, mutable extras excluded. -/
def cmdEq (a b : BuildCommand) : Bool :=
  decide (a.toolchain = b.toolchain ∧ a.target = b.target ∧
    a.configuration = b.configuration ∧ a.platform = b.platform ∧
    a.projectName = b.projectName)

/-- `buildtool.BuildCommandSliceContains`, over the modelled equality. -/
def BuildCommandSliceContains (cmds : List BuildCommand) (c : BuildCommand) : Bool :=
  cmds.any (fun x => cmdEq x c)

/-- `builder.Model.filteredProjects` (builder.go lines 61-75). -/
def Builder.filteredProjects (b : Builder) : List Project :=
  b.solution.ProjectMap.filter fun proj =>
    isProjectTypeAllowed proj.ProjectType b.projectTypeWhitelist &&
      decide (proj.ProjectType ≠ ProjectType.Unknown)

/-- Warning of builder.go line 89 / 172. -/
def noConfigWarning (name solutionConfig : String) : String :=
  "project (" ++ name ++ ") do not have config for solution config (" ++
    solutionConfig ++ "), skipping..."

/-- Warning of builder.go line 97. -/
def notArchivableWarning (name outputType : String) : String :=
  "project (" ++ name ++ ") does not archivable based on output type (" ++
    outputType ++ "), skipping..."

/-- Warning of builder.go line 102. -/
def notAndroidAppWarning (name : String) : String :=
  "(" ++ name ++ ") is not an android application project, skipping..."

/-- Warning of builder.go line 178. -/
def noProjectConfigWarning (name solutionConfig : String) : String :=
  "project (" ++ name ++ ") contains mapping for solution config (" ++
    solutionConfig ++ "), but does not have project configuration"

/-- Body of the loop of `buildableProjects` (builder.go lines 84-109),
recursing over the filtered projects. -/
def buildableAux (solutionConfig : String) : List Project → List Project × List String
  | [] => ([], [])
  | proj :: rest =>
    let r := buildableAux solutionConfig rest
    match lookupAssoc proj.ConfigMap solutionConfig with
    | none => (r.1, noConfigWarning proj.Name solutionConfig :: r.2)
    | some _ =>
      if (proj.ProjectType = ProjectType.IOS ∨ proj.ProjectType = ProjectType.MacOS ∨
          proj.ProjectType = ProjectType.TvOS) ∧ proj.OutputType ≠ "exe" then
        (r.1, notArchivableWarning proj.Name proj.OutputType :: r.2)
      else if proj.ProjectType = ProjectType.Android ∧ ¬ proj.AndroidApplication then
        (r.1, notAndroidAppWarning proj.Name :: r.2)
      else if proj.ProjectType ≠ ProjectType.Unknown then
        (proj :: r.1, r.2)
      else r

/-- `builder.Model.buildableProjects` (builder.go lines 77-112). -/
def Builder.buildableProjects (b : Builder) (configuration platform : String) :
    List Project × List String :=
  buildableAux (ToConfig configuration platform) b.filteredProjects

/-- The per-project command planning `switch` of `BuildAllProjects`
(builder.go lines 182-253), written with the same constructor/setter calls as
the source. -/
def planBuildCommands (b : Builder) (configuration platform : String)
    (proj : Project) (projectConfig : ProjectConfig) : List BuildCommand :=
  match proj.ProjectType with
  | ProjectType.IOS | ProjectType.TvOS =>
    if b.forceMDTool then
      let command := ((((mdtool.New b.solution.Pth).SetTarget "build").SetConfiguration
        projectConfig.Configuration).SetPlatform projectConfig.Platform).SetProjectName proj.Name
      if isArchitectureArchiveable projectConfig.MtouchArchs then
        let command2 := ((((mdtool.New b.solution.Pth).SetTarget "archive").SetConfiguration
          projectConfig.Configuration).SetPlatform projectConfig.Platform).SetProjectName proj.Name
        [command, command2]
      else
        [command]
    else
      let command := (((xbuild.New b.solution.Pth).SetTarget "Build").SetConfiguration
        configuration).SetPlatform platform
      let command := if isArchitectureArchiveable projectConfig.MtouchArchs then
          (command.SetBuildIpa true).SetArchiveOnBuild true
        else command
      [command]
  | ProjectType.MacOS =>
    if b.forceMDTool then
      let command := ((((mdtool.New b.solution.Pth).SetTarget "build").SetConfiguration
        projectConfig.Configuration).SetPlatform projectConfig.Platform).SetProjectName proj.Name
      let command2 := ((((mdtool.New b.solution.Pth).SetTarget "archive").SetConfiguration
        projectConfig.Configuration).SetPlatform projectConfig.Platform).SetProjectName proj.Name
      [command, command2]
    else
      let command := ((((xbuild.New b.solution.Pth).SetTarget "Build").SetConfiguration
        configuration).SetPlatform platform).SetArchiveOnBuild true
      [command]
  | ProjectType.Android =>
    let command := xbuild.New proj.Pth
    let command := if projectConfig.SignAndroid then command.SetTarget "SignAndroidPackage"
      else command.SetTarget "PackageForAndroid"
    let command := command.SetConfiguration projectConfig.Configuration
    let command := if isPlatformAnyCPU projectConfig.Platform then command
      else command.SetPlatform projectConfig.Platform
    [command]
  | ProjectType.Unknown => []

/-- Error value of `BuildAllProjects`: either `validateSolutionConfig` failed,
or the `Run` of a command failed (the failing command is carried). -/
inductive BuildErr
  | invalidSolutionConfig
  | runFailed (c : BuildCommand)
deriving DecidableEq

/-- Trace of the inner command loop of `BuildAllProjects` (builder.go lines
255-282): the final `perfomedCommands` list, the observation-hook calls
`(project name, command, alreadyPerformed)`, the `Run` invocations in order,
and the failing command when a `Run` failed. -/
structure ExecTrace where
  performed : List BuildCommand
  observed : List (String × BuildCommand × Bool)
  ran : List BuildCommand
  failed : Option BuildCommand
deriving DecidableEq

/-- The inner command loop of `BuildAllProjects` (builder.go lines 258-282):
prepare hook first (it may rewrite the command), then the dedup check against
`performed`, then the observation hook, then `Run`; the command is appended to
`performed` only after `Run` succeeds, and a failing `Run` aborts with the
trace so far.  `runOk` stands for the external `Run` collaborator. -/
def runBuildCommands (prepare : Project → BuildCommand → BuildCommand)
    (runOk : BuildCommand → Bool) (proj : Project) :
    List BuildCommand → List BuildCommand → ExecTrace
  | [], performed => { performed := performed, observed := [], ran := [], failed := none }
  | c0 :: rest, performed =>
    if BuildCommandSliceContains performed (prepare proj c0) then
      let t := runBuildCommands prepare runOk proj rest performed
      { t with observed := (proj.Name, prepare proj c0, true) :: t.observed }
    else if runOk (prepare proj c0) then
      let t := runBuildCommands prepare runOk proj rest (performed ++ [prepare proj c0])
      { performed := t.performed,
        observed := (proj.Name, prepare proj c0, false) :: t.observed,
        ran := prepare proj c0 :: t.ran, failed := t.failed }
    else
      { performed := performed, observed := [(proj.Name, prepare proj c0, false)],
        ran := [prepare proj c0], failed := some (prepare proj c0) }

/-- Result of `BuildAllProjects`: the returned warnings and error, together
with the trace of hook calls, `Run` invocations, and the per-project
`perfomedCommands` lists (the source declares that list afresh inside the
project loop, builder.go line 256). -/
structure BuildResult where
  warnings : List String
  observed : List (String × BuildCommand × Bool)
  ran : List BuildCommand
  performedLists : List (List BuildCommand)
  err : Option BuildErr
deriving DecidableEq

/-- The project loop of `BuildAllProjects` (builder.go lines 169-283): config
resolution with its two non-fatal warning skips, planning, then the command
loop with a per-project fresh `perfomedCommands` list; a failing `Run`
returns the warnings so far and the error at once. -/
def buildProjectsLoop (b : Builder) (configuration platform solutionConfig : String)
    (prepare : Project → BuildCommand → BuildCommand) (runOk : BuildCommand → Bool) :
    List Project → List String → BuildResult
  | [], warnings =>
    { warnings := warnings, observed := [], ran := [], performedLists := [], err := none }
  | proj :: rest, warnings =>
    match lookupAssoc proj.ConfigMap solutionConfig with
    | none =>
      buildProjectsLoop b configuration platform solutionConfig prepare runOk rest
        (warnings ++ [noConfigWarning proj.Name solutionConfig])
    | some projectConfigKey =>
      match lookupAssoc proj.Configs projectConfigKey with
      | none =>
        buildProjectsLoop b configuration platform solutionConfig prepare runOk rest
          (warnings ++ [noProjectConfigWarning proj.Name solutionConfig])
      | some projectConfig =>
        let t := runBuildCommands prepare runOk proj
          (planBuildCommands b configuration platform proj projectConfig) []
        match t.failed with
        | some c =>
          { warnings := warnings, observed := t.observed, ran := t.ran,
            performedLists := [t.performed], err := some (BuildErr.runFailed c) }
        | none =>
          let r := buildProjectsLoop b configuration platform solutionConfig prepare runOk
            rest warnings
          { warnings := r.warnings, observed := t.observed ++ r.observed,
            ran := t.ran ++ r.ran, performedLists := t.performed :: r.performedLists,
            err := r.err }

/-- `builder.Model.BuildAllProjects` (builder.go lines 155-286).  `prepare`
and `runOk` stand for the prepare callback and the external `Run`; the
calls of the observation callback are recorded in the trace. -/
def Builder.BuildAllProjects (b : Builder) (configuration platform : String)
    (prepare : Project → BuildCommand → BuildCommand) (runOk : BuildCommand → Bool) :
    BuildResult :=
  if validateSolutionConfig b.solution configuration platform then
    let bw := b.buildableProjects configuration platform
    buildProjectsLoop b configuration platform (ToConfig configuration platform) prepare runOk
      bw.1 bw.2
  else
    { warnings := [], observed := [], ran := [], performedLists := [],
      err := some BuildErr.invalidSolutionConfig }

/-- The filesystem/manifest probes of `CollectOutput` (external collaborators
outside `src/`): each returns a found path, the empty string for "nothing
found", or a fatal error. -/
structure Probes where
  exportLatestXCArchiveFromXcodeArchives : String → Except String String
  exportLatestIpa : String → String → Except String String
  exportAppDSYM : String → String → Except String String
  exportApp : String → String → Except String String
  exportPKG : String → String → Except String String
  androidPackageName : String → Except String String
  exportApk : String → String → Except String String

/-- A probe result as (at most one) artifact-map entry: empty path means no
entry (builder.go treats `""` as "nothing found"). -/
def optEntry (k : OutputType) (s : String) : List (OutputType × String) :=
  if s = "" then [] else [(k, s)]

/-- The per-project probe sequence of the `CollectOutput` switch (builder.go
lines 312-358): the entries a project contributes, in probe order, or the
first probe error.  The probes are pure here, so running them before the map
insertions is equivalent to the interleaving in the source. -/
def projectHits (b : Builder) (probes : Probes) (proj : Project)
    (projectConfig : ProjectConfig) : Except String (List (OutputType × String)) :=
  match proj.ProjectType with
  | ProjectType.IOS | ProjectType.TvOS =>
    match probes.exportLatestXCArchiveFromXcodeArchives proj.AssemblyName with
    | Except.error e => Except.error e
    | Except.ok xcarchivePth =>
      match probes.exportLatestIpa projectConfig.OutputDir proj.AssemblyName with
      | Except.error e => Except.error e
      | Except.ok ipaPth =>
        match probes.exportAppDSYM projectConfig.OutputDir proj.AssemblyName with
        | Except.error e => Except.error e
        | Except.ok dsymPth =>
          Except.ok (optEntry OutputType.XCArchive xcarchivePth ++
            optEntry OutputType.IPA ipaPth ++ optEntry OutputType.DSYM dsymPth)
  | ProjectType.MacOS =>
    match (if b.forceMDTool then probes.exportLatestXCArchiveFromXcodeArchives proj.AssemblyName
           else Except.ok "") with
    | Except.error e => Except.error e
    | Except.ok xcarchivePth =>
      match probes.exportApp projectConfig.OutputDir proj.AssemblyName with
      | Except.error e => Except.error e
      | Except.ok appPth =>
        match probes.exportPKG projectConfig.OutputDir proj.AssemblyName with
        | Except.error e => Except.error e
        | Except.ok pkgPth =>
          Except.ok (optEntry OutputType.XCArchive xcarchivePth ++
            optEntry OutputType.APP appPth ++ optEntry OutputType.PKG pkgPth)
  | ProjectType.Android =>
    match probes.androidPackageName proj.ManifestPth with
    | Except.error e => Except.error e
    | Except.ok packageName =>
      match probes.exportApk projectConfig.OutputDir packageName with
      | Except.error e => Except.error e
      | Except.ok apkPth => Except.ok (optEntry OutputType.APK apkPth)
  | ProjectType.Unknown => Except.ok []

/-- `builder.OutputMap`: project type → artifact kind → path, embedded as
nested association lists. -/
abbrev OutputMap := List (ProjectType × List (OutputType × String))

/-- Sequential map assignment of the found entries into the per-type map
(builder.go assigns each found path under its artifact kind). -/
def insertHits (base : List (OutputType × String)) (hits : List (OutputType × String)) :
    List (OutputType × String) :=
  hits.foldl (fun m kv => insertAssoc m kv.1 kv.2) base

/-- The project loop of `CollectOutput` (builder.go lines 296-363): silent
skips on unresolved config, per-type map fetched from the accumulator (or
fresh), probes run, and the per-type map stored back only when non-empty. -/
def collectLoop (b : Builder) (probes : Probes) (solutionConfig : String) :
    List Project → OutputMap → Except String OutputMap
  | [], outputMap => Except.ok outputMap
  | proj :: rest, outputMap =>
    match lookupAssoc proj.ConfigMap solutionConfig with
    | none => collectLoop b probes solutionConfig rest outputMap
    | some projectConfigKey =>
      match lookupAssoc proj.Configs projectConfigKey with
      | none => collectLoop b probes solutionConfig rest outputMap
      | some projectConfig =>
        match projectHits b probes proj projectConfig with
        | Except.error e => Except.error e
        | Except.ok hits =>
          let projectTypeOutputMap :=
            insertHits ((lookupAssoc outputMap proj.ProjectType).getD []) hits
          if projectTypeOutputMap.length > 0 then
            collectLoop b probes solutionConfig rest
              (insertAssoc outputMap proj.ProjectType projectTypeOutputMap)
          else
            collectLoop b probes solutionConfig rest outputMap

/-- `builder.Model.CollectOutput` (builder.go lines 289-366). -/
def Builder.CollectOutput (b : Builder) (configuration platform : String) (probes : Probes) :
    Except String OutputMap :=
  collectLoop b probes (ToConfig configuration platform)
    (b.buildableProjects configuration platform).1 []

/-- Some project of type `t` among `projs` has a resolved config and at least
one artifact probe that succeeded with a non-empty path (its probe sequence
yields at least one entry). -/
def typeHasArtifact (b : Builder) (probes : Probes) (solutionConfig : String)
    (projs : List Project) (t : ProjectType) : Prop :=
  ∃ proj ∈ projs, proj.ProjectType = t ∧
    ∃ key projectConfig hits,
      lookupAssoc proj.ConfigMap solutionConfig = some key ∧
      lookupAssoc proj.Configs key = some projectConfig ∧
      projectHits b probes proj projectConfig = Except.ok hits ∧ hits ≠ []

/-! Concrete fixtures used by the evaluation theorems and witnesses. -/

/-- iOS project config mapped by `Release|iPhone`, device architecture. -/
def pcA : ProjectConfig :=
  { Configuration := "Release", Platform := "iPhone", OutputDir := "out",
    SignAndroid := false, MtouchArchs := ["ARMv7"] }

def projA : Project :=
  { Name := "A", Pth := "A.csproj", ProjectType := ProjectType.IOS, OutputType := "exe",
    AndroidApplication := false, AssemblyName := "A", ManifestPth := "",
    ConfigMap := [("Release|iPhone", "RelKey")], Configs := [("RelKey", pcA)] }

def projB : Project :=
  { projA with Name := "B", Pth := "B.csproj", AssemblyName := "B" }

def projUnknown : Project :=
  { projA with Name := "U", Pth := "U.csproj", ProjectType := ProjectType.Unknown }

def sol1 : Solution :=
  { Pth := "sln", ConfigList := ["Release|iPhone"], ProjectMap := [projA, projB] }

/-- Two equal-plan iOS projects, build-engine (non-forced) toolchain. -/
def b1 : Builder :=
  { solution := sol1, projectTypeWhitelist := [], forceMDTool := false }

/-- Same solution under the forced alternate (mdtool) toolchain. -/
def b1f : Builder :=
  { b1 with forceMDTool := true }

/-- The single build-engine command both projects of `b1` plan. -/
def sharedCmd : BuildCommand :=
  { toolchain := ToolchainKind.xbuild, pth := "sln", target := "Build",
    configuration := "Release", platform := some "iPhone", projectName := none,
    buildIpa := true, archiveOnBuild := true }

def pcMac : ProjectConfig :=
  { Configuration := "Release", Platform := "Mac", OutputDir := "macout",
    SignAndroid := false, MtouchArchs := [] }

def projMac : Project :=
  { Name := "Mac", Pth := "Mac.csproj", ProjectType := ProjectType.MacOS, OutputType := "exe",
    AndroidApplication := false, AssemblyName := "Mac", ManifestPth := "",
    ConfigMap := [("Release|Mac", "MacKey")], Configs := [("MacKey", pcMac)] }

def bMac : Builder :=
  { solution := { Pth := "macsln", ConfigList := ["Release|Mac"], ProjectMap := [projMac] },
    projectTypeWhitelist := [], forceMDTool := true }

/-- macOS project with a non-executable output type. -/
def projMacLib : Project :=
  { projMac with Name := "MacLib", Pth := "MacLib.csproj", OutputType := "Library" }

def bMacLib : Builder :=
  { solution := { Pth := "macsln", ConfigList := ["Release|Mac"], ProjectMap := [projMacLib] },
    projectTypeWhitelist := [], forceMDTool := false }

def pcAnd : ProjectConfig :=
  { Configuration := "Debug", Platform := "AnyCPU", OutputDir := "bin",
    SignAndroid := true, MtouchArchs := [] }

def projAnd : Project :=
  { Name := "And", Pth := "And.csproj", ProjectType := ProjectType.Android,
    OutputType := "library", AndroidApplication := true, AssemblyName := "And",
    ManifestPth := "AndroidManifest.xml",
    ConfigMap := [("Debug|AnyCPU", "DebKey")], Configs := [("DebKey", pcAnd)] }

def bAnd : Builder :=
  { solution := { Pth := "andsln", ConfigList := ["Debug|AnyCPU"], ProjectMap := [projAnd] },
    projectTypeWhitelist := [], forceMDTool := false }

/-- The single command planned for `projAnd`. -/
def andCmd : BuildCommand :=
  { toolchain := ToolchainKind.xbuild, pth := "And.csproj", target := "SignAndroidPackage",
    configuration := "Debug", platform := none, projectName := none,
    buildIpa := false, archiveOnBuild := false }

/-- Project with a solution-config mapping whose referenced project config is
absent from `Configs`. -/
def projNoCfg : Project :=
  { projAnd with
    Name := "NC"
    Pth := "NC.csproj"
    ConfigMap := [("Debug|AnyCPU", "MissingKey")]
    Configs := [] }

/-- Probes for the `CollectOutput` witness: every probe finds nothing except
the Android package lookup and apk probe. -/
def probes8 : Probes :=
  { exportLatestXCArchiveFromXcodeArchives := fun _ => Except.ok "",
    exportLatestIpa := fun _ _ => Except.ok "",
    exportAppDSYM := fun _ _ => Except.ok "",
    exportApp := fun _ _ => Except.ok "",
    exportPKG := fun _ _ => Except.ok "",
    androidPackageName := fun _ => Except.ok "com.example.app",
    exportApk := fun _ _ => Except.ok "app.apk" }

/-- The output map `CollectOutput` produces for `bAnd` under `probes8`. -/
def m8 : OutputMap :=
  [(ProjectType.Android, [(OutputType.APK, "app.apk")])]


/-- C3: for a buildable iOS or tvOS project with the force-alternate-toolchain
flag false, the planner emits exactly one build-engine ("xbuild") build
command on the solution path carrying the caller-requested configuration and
platform, with the build-ipa and archive-on-build flags both set iff the
architecture list satisfies the archivable predicate; no second command. -/
theorem plan_ios_xbuild_single_command (b : Builder) (configuration platform : String)
    (proj : Project) (projectConfig : ProjectConfig)
    (hforce : b.forceMDTool = false)
    (htype : proj.ProjectType = ProjectType.IOS ∨ proj.ProjectType = ProjectType.TvOS) :
    planBuildCommands b configuration platform proj projectConfig =
      [{ toolchain := ToolchainKind.xbuild, pth := b.solution.Pth, target := "Build",
         configuration := configuration, platform := some platform, projectName := none,
         buildIpa := isArchitectureArchiveable projectConfig.MtouchArchs,
         archiveOnBuild := isArchitectureArchiveable projectConfig.MtouchArchs }] := by
  rcases htype with h | h <;>
    cases hA : isArchitectureArchiveable projectConfig.MtouchArchs <;>
      simp [planBuildCommands, h, hforce, hA, xbuild.New, BuildCommand.SetTarget,
        BuildCommand.SetConfiguration, BuildCommand.SetPlatform, BuildCommand.SetBuildIpa,
        BuildCommand.SetArchiveOnBuild]

/-- Witness for C3: project `projA` (iOS, device architecture list) under the
non-forced builder `b1`: the single command, with both flags enabled. -/
theorem plan_ios_xbuild_single_command_witness :
    planBuildCommands b1 "Release" "iPhone" projA pcA =
      [{ toolchain := ToolchainKind.xbuild, pth := "sln", target := "Build",
         configuration := "Release", platform := some "iPhone", projectName := none,
         buildIpa := true, archiveOnBuild := true }] := by
  rw [plan_ios_xbuild_single_command b1 "Release" "iPhone" projA pcA rfl (Or.inl rfl)]
  decide

/-- C4: for an Android project the planner emits exactly one build-engine
command on the own path of the project, targeting the sign-package action iff
the signing flag of the project config is set (package-for-device otherwise),
with the own configuration of the project, and the platform set explicitly iff the
platform string is not the case-insensitive wildcard "AnyCPU". -/
theorem plan_android_single_command (b : Builder) (configuration platform : String)
    (proj : Project) (projectConfig : ProjectConfig)
    (htype : proj.ProjectType = ProjectType.Android) :
    planBuildCommands b configuration platform proj projectConfig =
      [{ toolchain := ToolchainKind.xbuild, pth := proj.Pth,
         target := if projectConfig.SignAndroid then "SignAndroidPackage"
           else "PackageForAndroid",
         configuration := projectConfig.Configuration,
         platform := if isPlatformAnyCPU projectConfig.Platform then none
           else some projectConfig.Platform,
         projectName := none, buildIpa := false, archiveOnBuild := false }] := by
  cases hs : projectConfig.SignAndroid <;>
    cases hp : isPlatformAnyCPU projectConfig.Platform <;>
      simp [planBuildCommands, htype, hs, hp, xbuild.New, BuildCommand.SetTarget,
        BuildCommand.SetConfiguration, BuildCommand.SetPlatform]

/-- Witness for C4: the Android project `projAnd` (signing on, platform
"AnyCPU"): one sign-package command with no explicit platform. -/
theorem plan_android_single_command_witness :
    planBuildCommands bAnd "Debug" "AnyCPU" projAnd pcAnd = [andCmd] := by
  rw [plan_android_single_command bAnd "Debug" "AnyCPU" projAnd pcAnd rfl]
  decide

/-- C5: for a macOS project under the forced alternate toolchain the planner
unconditionally emits exactly two mdtool commands — build then archive — both
with the own configuration, platform and name of the project, regardless of the
architecture list. -/
theorem plan_macos_mdtool_two_commands (b : Builder) (configuration platform : String)
    (proj : Project) (projectConfig : ProjectConfig)
    (hforce : b.forceMDTool = true)
    (htype : proj.ProjectType = ProjectType.MacOS) :
    planBuildCommands b configuration platform proj projectConfig =
      [{ toolchain := ToolchainKind.mdtool, pth := b.solution.Pth, target := "build",
         configuration := projectConfig.Configuration,
         platform := some projectConfig.Platform, projectName := some proj.Name,
         buildIpa := false, archiveOnBuild := false },
       { toolchain := ToolchainKind.mdtool, pth := b.solution.Pth, target := "archive",
         configuration := projectConfig.Configuration,
         platform := some projectConfig.Platform, projectName := some proj.Name,
         buildIpa := false, archiveOnBuild := false }] := by
  simp [planBuildCommands, htype, hforce, mdtool.New, BuildCommand.SetTarget,
    BuildCommand.SetConfiguration, BuildCommand.SetPlatform, BuildCommand.SetProjectName]

/-- Witness for C5: the macOS project `projMac` under the forced builder
`bMac` yields exactly the build and archive commands. -/
theorem plan_macos_mdtool_two_commands_witness :
    planBuildCommands bMac "Release" "Mac" projMac pcMac =
      [{ toolchain := ToolchainKind.mdtool, pth := "macsln", target := "build",
         configuration := "Release", platform := some "Mac", projectName := some "Mac",
         buildIpa := false, archiveOnBuild := false },
       { toolchain := ToolchainKind.mdtool, pth := "macsln", target := "archive",
         configuration := "Release", platform := some "Mac", projectName := some "Mac",
         buildIpa := false, archiveOnBuild := false }] := by
  rw [plan_macos_mdtool_two_commands bMac "Release" "Mac" projMac pcMac rfl rfl]
  decide

/-- C6: for an iOS or tvOS project under the forced alternate toolchain the
planner emits an mdtool build command with the own configuration of the project,
platform and name, and appends a second archive command with those same
values iff the architecture list satisfies the archivable predicate. -/
theorem plan_ios_mdtool_archive_gated (b : Builder) (configuration platform : String)
    (proj : Project) (projectConfig : ProjectConfig)
    (hforce : b.forceMDTool = true)
    (htype : proj.ProjectType = ProjectType.IOS ∨ proj.ProjectType = ProjectType.TvOS) :
    planBuildCommands b configuration platform proj projectConfig =
      { toolchain := ToolchainKind.mdtool, pth := b.solution.Pth, target := "build",
        configuration := projectConfig.Configuration,
        platform := some projectConfig.Platform, projectName := some proj.Name,
        buildIpa := false, archiveOnBuild := false } ::
      (if isArchitectureArchiveable projectConfig.MtouchArchs then
        [{ toolchain := ToolchainKind.mdtool, pth := b.solution.Pth, target := "archive",
           configuration := projectConfig.Configuration,
           platform := some projectConfig.Platform, projectName := some proj.Name,
           buildIpa := false, archiveOnBuild := false }]
      else []) := by
  rcases htype with h | h <;>
    cases hA : isArchitectureArchiveable projectConfig.MtouchArchs <;>
      simp [planBuildCommands, h, hforce, hA, mdtool.New, BuildCommand.SetTarget,
        BuildCommand.SetConfiguration, BuildCommand.SetPlatform,
        BuildCommand.SetProjectName]

/-- Witness for C6: `projA` (archivable architecture list) under the forced
builder `b1f`: build plus archive. -/
theorem plan_ios_mdtool_archive_gated_witness :
    planBuildCommands b1f "Release" "iPhone" projA pcA =
      [{ toolchain := ToolchainKind.mdtool, pth := "sln", target := "build",
         configuration := "Release", platform := some "iPhone", projectName := some "A",
         buildIpa := false, archiveOnBuild := false },
       { toolchain := ToolchainKind.mdtool, pth := "sln", target := "archive",
         configuration := "Release", platform := some "iPhone", projectName := some "A",
         buildIpa := false, archiveOnBuild := false }] := by
  rw [plan_ios_mdtool_archive_gated b1f "Release" "iPhone" projA pcA rfl (Or.inl rfl)]
  decide

/-- Projects selected by `buildableAux` never have Unknown type (the
defensive re-check of the loop). -/
theorem buildableAux_mem_ne_unknown (solutionConfig : String) (proj : Project) :
    ∀ l : List Project, proj ∈ (buildableAux solutionConfig l).1 →
      proj.ProjectType ≠ ProjectType.Unknown := by
  intro l
  induction l with
  | nil => intro h; simp [buildableAux] at h
  | cons p rest ih =>
    intro hmem
    cases hc : lookupAssoc p.ConfigMap solutionConfig with
    | none =>
      simp only [buildableAux, hc] at hmem
      exact ih hmem
    | some key =>
      simp only [buildableAux, hc] at hmem
      split_ifs at hmem with h1 h2 h3
      · exact ih hmem
      · exact ih hmem
      · rcases List.mem_cons.mp hmem with h | h
        · subst h; exact h3
        · exact ih h
      · exact ih hmem

/-- An Apple-family project whose output type is not "exe" is never selected
by `buildableAux`. -/
theorem buildableAux_not_mem_of_bad_output (solutionConfig : String) (proj : Project)
    (htype : proj.ProjectType = ProjectType.IOS ∨ proj.ProjectType = ProjectType.MacOS ∨
      proj.ProjectType = ProjectType.TvOS)
    (hout : proj.OutputType ≠ "exe") :
    ∀ l : List Project, proj ∉ (buildableAux solutionConfig l).1 := by
  intro l
  induction l with
  | nil => simp [buildableAux]
  | cons p rest ih =>
    intro hmem
    cases hc : lookupAssoc p.ConfigMap solutionConfig with
    | none =>
      simp only [buildableAux, hc] at hmem
      exact ih hmem
    | some key =>
      simp only [buildableAux, hc] at hmem
      split_ifs at hmem with h1 h2 h3
      · exact ih hmem
      · exact ih hmem
      · rcases List.mem_cons.mp hmem with h | h
        · subst h; exact h1 ⟨htype, hout⟩
        · exact ih h
      · exact ih hmem

/-- An Apple-family project present in the scanned list, with a mapped
solution config but a non-"exe" output type, gets the not-archivable warning
from `buildableAux`. -/
theorem buildableAux_warning_of_bad_output (solutionConfig : String) (proj : Project)
    (htype : proj.ProjectType = ProjectType.IOS ∨ proj.ProjectType = ProjectType.MacOS ∨
      proj.ProjectType = ProjectType.TvOS)
    (hout : proj.OutputType ≠ "exe") :
    ∀ l : List Project, proj ∈ l →
      (lookupAssoc proj.ConfigMap solutionConfig).isSome →
      notArchivableWarning proj.Name proj.OutputType ∈ (buildableAux solutionConfig l).2 := by
  intro l
  induction l with
  | nil => intro h; simp at h
  | cons p rest ih =>
    intro hmem hcfg
    rcases List.mem_cons.mp hmem with h | h
    · subst h
      cases hc : lookupAssoc proj.ConfigMap solutionConfig with
      | none => rw [hc] at hcfg; simp at hcfg
      | some key =>
        have h1 : (proj.ProjectType = ProjectType.IOS ∨ proj.ProjectType = ProjectType.MacOS ∨
            proj.ProjectType = ProjectType.TvOS) ∧ proj.OutputType ≠ "exe" := ⟨htype, hout⟩
        simp only [buildableAux, hc, if_pos h1]
        exact List.mem_cons_self _ _
    · cases hc : lookupAssoc p.ConfigMap solutionConfig with
      | none =>
        simp only [buildableAux, hc]
        exact List.mem_cons_of_mem _ (ih h hcfg)
      | some key =>
        simp only [buildableAux, hc]
        split_ifs with h1 h2 h3
        · exact List.mem_cons_of_mem _ (ih h hcfg)
        · exact List.mem_cons_of_mem _ (ih h hcfg)
        · exact ih h hcfg
        · exact ih h hcfg

/-- C7: a project of Unknown type never appears in `filteredProjects`, never
appears in the buildable set, and the planner emits no commands for it. -/
theorem unknown_projects_excluded (b : Builder) (configuration platform : String)
    (proj : Project) (projectConfig : ProjectConfig) :
    (proj ∈ b.filteredProjects → proj.ProjectType ≠ ProjectType.Unknown) ∧
    (proj ∈ (b.buildableProjects configuration platform).1 →
      proj.ProjectType ≠ ProjectType.Unknown) ∧
    (proj.ProjectType = ProjectType.Unknown →
      planBuildCommands b configuration platform proj projectConfig = []) := by
  refine ⟨fun hmem => ?_, fun hmem => ?_, fun hu => ?_⟩
  · have h := List.mem_filter.mp hmem
    have h2 := h.2
    simp only [Bool.and_eq_true, decide_eq_true_eq] at h2
    exact h2.2
  · exact buildableAux_mem_ne_unknown (ToConfig configuration platform) proj
      b.filteredProjects hmem
  · simp [planBuildCommands, hu]

/-- Witness for C7: the planner emits nothing for the Unknown-typed fixture
project. -/
theorem unknown_projects_excluded_witness :
    planBuildCommands b1 "Release" "iPhone" projUnknown pcA = [] :=
  (unknown_projects_excluded b1 "Release" "iPhone" projUnknown pcA).2.2 rfl

/-- C10: the executable-output eligibility rule applies to macOS projects as
well: a macOS project whose output type is not "exe" is excluded from the
buildable set, and (when it is among the filtered projects and its solution
config is mapped, i.e. when the output-type check is reached) the
not-archivable warning is emitted for it. -/
theorem macos_output_type_gate (b : Builder) (configuration platform : String)
    (proj : Project)
    (hmac : proj.ProjectType = ProjectType.MacOS)
    (hout : proj.OutputType ≠ "exe") :
    proj ∉ (b.buildableProjects configuration platform).1 ∧
    (proj ∈ b.filteredProjects →
      (lookupAssoc proj.ConfigMap (ToConfig configuration platform)).isSome →
      notArchivableWarning proj.Name proj.OutputType ∈
        (b.buildableProjects configuration platform).2) := by
  constructor
  · exact buildableAux_not_mem_of_bad_output (ToConfig configuration platform) proj
      (Or.inr (Or.inl hmac)) hout b.filteredProjects
  · intro hmem hcfg
    exact buildableAux_warning_of_bad_output (ToConfig configuration platform) proj
      (Or.inr (Or.inl hmac)) hout b.filteredProjects hmem hcfg

/-- Witness for C10: the non-executable macOS fixture project is warned
about (and, per the theorem, excluded). -/
theorem macos_output_type_gate_witness :
    notArchivableWarning projMacLib.Name projMacLib.OutputType ∈
      (bMacLib.buildableProjects "Release" "Mac").2 :=
  (macos_output_type_gate bMacLib "Release" "Mac" projMacLib rfl (by decide)).2
    (by decide) (by decide)

/-- C9: in the project loop of `BuildAllProjects`, a project whose
`ConfigMap` maps the solution config to a key absent from `Configs` produces
exactly one warning and is skipped — the loop result is that of the remaining
projects with the warning appended, so no command is planned, observed or run
for it and the condition is non-fatal. -/
theorem missing_project_config_warns_and_skips (b : Builder)
    (configuration platform solutionConfig : String)
    (prepare : Project → BuildCommand → BuildCommand) (runOk : BuildCommand → Bool)
    (proj : Project) (rest : List Project) (warnings : List String) (key : String)
    (h1 : lookupAssoc proj.ConfigMap solutionConfig = some key)
    (h2 : lookupAssoc proj.Configs key = none) :
    buildProjectsLoop b configuration platform solutionConfig prepare runOk
        (proj :: rest) warnings =
      buildProjectsLoop b configuration platform solutionConfig prepare runOk rest
        (warnings ++ [noProjectConfigWarning proj.Name solutionConfig]) := by
  simp [buildProjectsLoop, h1, h2]

/-- Witness for C9: the fixture project whose referenced project config is
missing is skipped with the warning, the loop continuing (non-fatally) with
no remaining projects. -/
theorem missing_project_config_warns_and_skips_witness :
    buildProjectsLoop bAnd "Debug" "AnyCPU" "Debug|AnyCPU" (fun _ c => c) (fun _ => true)
        [projNoCfg] [] =
      buildProjectsLoop bAnd "Debug" "AnyCPU" "Debug|AnyCPU" (fun _ c => c) (fun _ => true)
        [] [noProjectConfigWarning "NC" "Debug|AnyCPU"] :=
  missing_project_config_warns_and_skips bAnd "Debug" "AnyCPU" "Debug|AnyCPU"
    (fun _ c => c) (fun _ => true) projNoCfg [] [] "MissingKey" rfl rfl

/-- C1: counter-evaluation showing the "already performed" list is scoped per
project, not per pass.  In `b1` the two iOS projects plan the identical
build-engine command (`sharedCmd`), yet the pass runs it twice and the
observation hook reports `alreadyPerformed = false` both times, because
`perfomedCommands` is declared afresh inside the project loop (builder.go
line 256).  The pass-wide dedup of the spec would run it once and report `true`
for the second occurrence. -/
theorem dedup_not_pass_scoped :
    (b1.BuildAllProjects "Release" "iPhone" (fun _ c => c) (fun _ => true)).ran =
      [sharedCmd, sharedCmd] ∧
    (b1.BuildAllProjects "Release" "iPhone" (fun _ c => c) (fun _ => true)).observed =
      [("A", sharedCmd, false), ("B", sharedCmd, false)] ∧
    (b1.BuildAllProjects "Release" "iPhone" (fun _ c => c) (fun _ => true)).err = none := by
  refine ⟨by decide, by decide, by decide⟩

/-- Every command in the `perfomedCommands` list was run successfully, given
the commands already there were. -/
theorem runBuildCommands_performed_ok (prepare : Project → BuildCommand → BuildCommand)
    (runOk : BuildCommand → Bool) (proj : Project) :
    ∀ (cmds performed : List BuildCommand),
      (∀ c ∈ performed, runOk c = true) →
      ∀ c ∈ (runBuildCommands prepare runOk proj cmds performed).performed,
        runOk c = true := by
  intro cmds
  induction cmds with
  | nil => intro performed h; simpa [runBuildCommands] using h
  | cons c0 rest ih =>
    intro performed h
    cases h1 : BuildCommandSliceContains performed (prepare proj c0)
    · cases h2 : runOk (prepare proj c0)
      · simpa [runBuildCommands, h1, h2] using h
      · simp only [runBuildCommands, h1, h2]
        simp only [Bool.false_eq_true, if_false, if_true]
        refine ih (performed ++ [prepare proj c0]) ?_
        intro c hc
        rcases List.mem_append.mp hc with hc | hc
        · exact h c hc
        · simp at hc; subst hc; exact h2
    · simp only [runBuildCommands, h1, if_true]
      exact ih performed h

/-- When no command failed, every `Run` invocation in the trace succeeded. -/
theorem runBuildCommands_ran_ok (prepare : Project → BuildCommand → BuildCommand)
    (runOk : BuildCommand → Bool) (proj : Project) :
    ∀ (cmds performed : List BuildCommand),
      (runBuildCommands prepare runOk proj cmds performed).failed = none →
      ∀ c ∈ (runBuildCommands prepare runOk proj cmds performed).ran, runOk c = true := by
  intro cmds
  induction cmds with
  | nil => intro performed _ c hc; simp [runBuildCommands] at hc
  | cons c0 rest ih =>
    intro performed hnone
    cases h1 : BuildCommandSliceContains performed (prepare proj c0)
    · cases h2 : runOk (prepare proj c0)
      · rw [runBuildCommands] at hnone
        simp only [h1, h2] at hnone
        simp at hnone
      · simp only [runBuildCommands, h1, h2] at hnone ⊢
        simp only [Bool.false_eq_true, if_false, if_true] at hnone ⊢
        intro c hc
        rcases List.mem_cons.mp hc with hc | hc
        · subst hc; exact h2
        · exact ih (performed ++ [prepare proj c0]) hnone c hc
    · simp only [runBuildCommands, h1, if_true] at hnone ⊢
      exact ih performed hnone

/-- Shape of the trace when a command failed: the failing command failed, it
is the last `Run` invocation (everything before it succeeded), and it is the
last observation. -/
theorem runBuildCommands_failure_shape (prepare : Project → BuildCommand → BuildCommand)
    (runOk : BuildCommand → Bool) (proj : Project) :
    ∀ (cmds performed : List BuildCommand) (c : BuildCommand),
      (runBuildCommands prepare runOk proj cmds performed).failed = some c →
      runOk c = false ∧
      (∃ pre, (runBuildCommands prepare runOk proj cmds performed).ran = pre ++ [c] ∧
        ∀ x ∈ pre, runOk x = true) ∧
      (∃ obs, (runBuildCommands prepare runOk proj cmds performed).observed =
        obs ++ [(proj.Name, c, false)]) := by
  intro cmds
  induction cmds with
  | nil => intro performed c hc; simp [runBuildCommands] at hc
  | cons c0 rest ih =>
    intro performed c hsome
    cases h1 : BuildCommandSliceContains performed (prepare proj c0)
    · cases h2 : runOk (prepare proj c0)
      · rw [runBuildCommands] at hsome
        simp only [h1, h2] at hsome
        simp only [Bool.false_eq_true, if_false] at hsome
        have hc : prepare proj c0 = c := by
          simpa using congrArg (fun t => t) hsome
        subst hc
        refine ⟨h2, ⟨[], by simp [runBuildCommands, h1, h2], by simp⟩,
          ⟨[], by simp [runBuildCommands, h1, h2]⟩⟩
      · simp only [runBuildCommands, h1, h2] at hsome ⊢
        simp only [Bool.false_eq_true, if_false, if_true] at hsome ⊢
        obtain ⟨hf, ⟨pre, hran, hok⟩, ⟨obs, hobs⟩⟩ :=
          ih (performed ++ [prepare proj c0]) c hsome
        refine ⟨hf, ⟨prepare proj c0 :: pre, ?_, ?_⟩, ⟨(proj.Name, prepare proj c0, false) :: obs, ?_⟩⟩
        · simp [hran]
        · intro x hx
          rcases List.mem_cons.mp hx with hx | hx
          · subst hx; exact h2
          · exact hok x hx
        · simp [hobs]
    · simp only [runBuildCommands, h1, if_true] at hsome ⊢
      obtain ⟨hf, ⟨pre, hran, hok⟩, ⟨obs, hobs⟩⟩ := ih performed c hsome
      exact ⟨hf, ⟨pre, hran, hok⟩, ⟨(proj.Name, prepare proj c0, true) :: obs, by simp [hobs]⟩⟩

/-- The project loop only ever appends to the warnings it was given. -/
theorem buildProjectsLoop_warnings_extend (b : Builder)
    (configuration platform solutionConfig : String)
    (prepare : Project → BuildCommand → BuildCommand) (runOk : BuildCommand → Bool) :
    ∀ (projs : List Project) (warnings : List String),
      ∃ extra, (buildProjectsLoop b configuration platform solutionConfig prepare runOk
        projs warnings).warnings = warnings ++ extra := by
  intro projs
  induction projs with
  | nil => intro warnings; exact ⟨[], by simp [buildProjectsLoop]⟩
  | cons proj rest ih =>
    intro warnings
    cases hc1 : lookupAssoc proj.ConfigMap solutionConfig with
    | none =>
      obtain ⟨extra, hex⟩ := ih (warnings ++ [noConfigWarning proj.Name solutionConfig])
      exact ⟨[noConfigWarning proj.Name solutionConfig] ++ extra,
        by simp only [buildProjectsLoop, hc1]; simp [hex]⟩
    | some key =>
      cases hc2 : lookupAssoc proj.Configs key with
      | none =>
        obtain ⟨extra, hex⟩ := ih (warnings ++ [noProjectConfigWarning proj.Name solutionConfig])
        exact ⟨[noProjectConfigWarning proj.Name solutionConfig] ++ extra,
          by simp only [buildProjectsLoop, hc1, hc2]; simp [hex]⟩
      | some projectConfig =>
        cases hf : (runBuildCommands prepare runOk proj
            (planBuildCommands b configuration platform proj projectConfig) []).failed with
        | some c =>
          exact ⟨[], by simp [buildProjectsLoop, hc1, hc2, hf]⟩
        | none =>
          obtain ⟨extra, hex⟩ := ih warnings
          exact ⟨extra, by simp [buildProjectsLoop, hc1, hc2, hf, hex]⟩

/-- Every per-project `perfomedCommands` list collected by the loop holds
only successfully run commands. -/
theorem buildProjectsLoop_performed_ok (b : Builder)
    (configuration platform solutionConfig : String)
    (prepare : Project → BuildCommand → BuildCommand) (runOk : BuildCommand → Bool) :
    ∀ (projs : List Project) (warnings : List String),
      ∀ l ∈ (buildProjectsLoop b configuration platform solutionConfig prepare runOk
        projs warnings).performedLists, ∀ c ∈ l, runOk c = true := by
  intro projs
  induction projs with
  | nil => intro warnings l hl; simp [buildProjectsLoop] at hl
  | cons proj rest ih =>
    intro warnings l hl
    cases hc1 : lookupAssoc proj.ConfigMap solutionConfig with
    | none =>
      simp only [buildProjectsLoop, hc1] at hl
      exact ih _ l hl
    | some key =>
      cases hc2 : lookupAssoc proj.Configs key with
      | none =>
        simp only [buildProjectsLoop, hc1, hc2] at hl
        exact ih _ l hl
      | some projectConfig =>
        cases hf : (runBuildCommands prepare runOk proj
            (planBuildCommands b configuration platform proj projectConfig) []).failed with
        | some c =>
          simp only [buildProjectsLoop, hc1, hc2, hf] at hl
          simp only [List.mem_singleton] at hl
          subst hl
          exact runBuildCommands_performed_ok prepare runOk proj _ [] (by simp)
        | none =>
          simp only [buildProjectsLoop, hc1, hc2, hf] at hl
          rcases List.mem_cons.mp hl with hl | hl
          · subst hl
            exact runBuildCommands_performed_ok prepare runOk proj _ [] (by simp)
          · exact ih _ l hl

/-- When the loop reports no error, every `Run` invocation succeeded. -/
theorem buildProjectsLoop_ran_ok (b : Builder)
    (configuration platform solutionConfig : String)
    (prepare : Project → BuildCommand → BuildCommand) (runOk : BuildCommand → Bool) :
    ∀ (projs : List Project) (warnings : List String),
      (buildProjectsLoop b configuration platform solutionConfig prepare runOk
        projs warnings).err = none →
      ∀ c ∈ (buildProjectsLoop b configuration platform solutionConfig prepare runOk
        projs warnings).ran, runOk c = true := by
  intro projs
  induction projs with
  | nil => intro warnings _ c hc; simp [buildProjectsLoop] at hc
  | cons proj rest ih =>
    intro warnings hnone
    cases hc1 : lookupAssoc proj.ConfigMap solutionConfig with
    | none =>
      simp only [buildProjectsLoop, hc1] at hnone ⊢
      exact ih _ hnone
    | some key =>
      cases hc2 : lookupAssoc proj.Configs key with
      | none =>
        simp only [buildProjectsLoop, hc1, hc2] at hnone ⊢
        exact ih _ hnone
      | some projectConfig =>
        cases hf : (runBuildCommands prepare runOk proj
            (planBuildCommands b configuration platform proj projectConfig) []).failed with
        | some c =>
          simp only [buildProjectsLoop, hc1, hc2, hf] at hnone
          simp at hnone
        | none =>
          simp only [buildProjectsLoop, hc1, hc2, hf] at hnone ⊢
          intro c hc
          rcases List.mem_append.mp hc with hc | hc
          · exact runBuildCommands_ran_ok prepare runOk proj _ _ hf c hc
          · exact ih _ hnone c hc

/-- Shape of the loop result when a `Run` failed: the failing command failed,
it ends the run trace and the observation trace (nothing afterwards was
attempted), and the warnings returned are the ones accumulated so far. -/
theorem buildProjectsLoop_failure_shape (b : Builder)
    (configuration platform solutionConfig : String)
    (prepare : Project → BuildCommand → BuildCommand) (runOk : BuildCommand → Bool) :
    ∀ (projs : List Project) (warnings : List String) (c : BuildCommand),
      (buildProjectsLoop b configuration platform solutionConfig prepare runOk
        projs warnings).err = some (BuildErr.runFailed c) →
      runOk c = false ∧
      (∃ pre, (buildProjectsLoop b configuration platform solutionConfig prepare runOk
          projs warnings).ran = pre ++ [c] ∧ ∀ x ∈ pre, runOk x = true) ∧
      (∃ obs pn, (buildProjectsLoop b configuration platform solutionConfig prepare runOk
          projs warnings).observed = obs ++ [(pn, c, false)]) ∧
      (∃ extra, (buildProjectsLoop b configuration platform solutionConfig prepare runOk
          projs warnings).warnings = warnings ++ extra) := by
  intro projs
  induction projs with
  | nil => intro warnings c hc; simp [buildProjectsLoop] at hc
  | cons proj rest ih =>
    intro warnings c hsome
    cases hc1 : lookupAssoc proj.ConfigMap solutionConfig with
    | none =>
      simp only [buildProjectsLoop, hc1] at hsome ⊢
      obtain ⟨hf, hran, hobs, ⟨extra, hex⟩⟩ := ih _ c hsome
      exact ⟨hf, hran, hobs, ⟨[noConfigWarning proj.Name solutionConfig] ++ extra,
        by simp [hex]⟩⟩
    | some key =>
      cases hc2 : lookupAssoc proj.Configs key with
      | none =>
        simp only [buildProjectsLoop, hc1, hc2] at hsome ⊢
        obtain ⟨hf, hran, hobs, ⟨extra, hex⟩⟩ := ih _ c hsome
        exact ⟨hf, hran, hobs, ⟨[noProjectConfigWarning proj.Name solutionConfig] ++ extra,
          by simp [hex]⟩⟩
      | some projectConfig =>
        cases hf : (runBuildCommands prepare runOk proj
            (planBuildCommands b configuration platform proj projectConfig) []).failed with
        | some c0 =>
          simp only [buildProjectsLoop, hc1, hc2, hf] at hsome ⊢
          have hc0 : c0 = c := by
            simpa using hsome
          subst hc0
          obtain ⟨hfail, ⟨pre, hran, hok⟩, ⟨obs, hobs⟩⟩ :=
            runBuildCommands_failure_shape prepare runOk proj _ [] c0 hf
          exact ⟨hfail, ⟨pre, hran, hok⟩, ⟨obs, proj.Name, hobs⟩, ⟨[], by simp⟩⟩
        | none =>
          simp only [buildProjectsLoop, hc1, hc2, hf] at hsome ⊢
          obtain ⟨hfail, ⟨pre, hran, hok⟩, ⟨obs, pn, hobs⟩, ⟨extra, hex⟩⟩ := ih _ c hsome
          refine ⟨hfail, ?_, ?_, ⟨extra, hex⟩⟩
          · refine ⟨(runBuildCommands prepare runOk proj
              (planBuildCommands b configuration platform proj projectConfig) []).ran ++ pre,
              by simp [hran], ?_⟩
            intro x hx
            rcases List.mem_append.mp hx with hx | hx
            · exact runBuildCommands_ran_ok prepare runOk proj _ _ hf x hx
            · exact hok x hx
          · exact ⟨(runBuildCommands prepare runOk proj
              (planBuildCommands b configuration platform proj projectConfig) []).observed ++ obs,
              pn, by simp [hobs]⟩

/-- C2: in `BuildAllProjects`, a command joins the performed list only after
its `Run` succeeded (never before); if a `Run` fails the pass aborts at once —
the failing command is the last `Run` invocation and the last observation,
everything run before it succeeded, and the warnings accumulated so far (the
filtering warnings plus any config warnings) are returned alongside the
error; absent an error, every `Run` invocation succeeded. -/
theorem BuildAllProjects_failure_semantics (b : Builder) (configuration platform : String)
    (prepare : Project → BuildCommand → BuildCommand) (runOk : BuildCommand → Bool) :
    (∀ l ∈ (b.BuildAllProjects configuration platform prepare runOk).performedLists,
      ∀ c ∈ l, runOk c = true) ∧
    (∀ c, (b.BuildAllProjects configuration platform prepare runOk).err =
        some (BuildErr.runFailed c) →
      runOk c = false ∧
      (∃ pre, (b.BuildAllProjects configuration platform prepare runOk).ran = pre ++ [c] ∧
        ∀ x ∈ pre, runOk x = true) ∧
      (∃ obs pn, (b.BuildAllProjects configuration platform prepare runOk).observed =
        obs ++ [(pn, c, false)]) ∧
      (∃ extra, (b.BuildAllProjects configuration platform prepare runOk).warnings =
        (b.buildableProjects configuration platform).2 ++ extra)) ∧
    ((b.BuildAllProjects configuration platform prepare runOk).err = none →
      ∀ c ∈ (b.BuildAllProjects configuration platform prepare runOk).ran,
        runOk c = true) := by
  cases hv : validateSolutionConfig b.solution configuration platform
  · refine ⟨fun l hl => ?_, fun c hc => ?_, fun hnone => ?_⟩
    · simp [Builder.BuildAllProjects, hv] at hl
    · simp [Builder.BuildAllProjects, hv] at hc
    · simp [Builder.BuildAllProjects, hv] at hnone
  · refine ⟨fun l hl => ?_, fun c hc => ?_, fun hnone => ?_⟩
    · simp only [Builder.BuildAllProjects, hv, if_true] at hl
      exact buildProjectsLoop_performed_ok b configuration platform
        (ToConfig configuration platform) prepare runOk _ _ l hl
    · simp only [Builder.BuildAllProjects, hv, if_true] at hc ⊢
      exact buildProjectsLoop_failure_shape b configuration platform
        (ToConfig configuration platform) prepare runOk _ _ c hc
    · simp only [Builder.BuildAllProjects, hv, if_true] at hnone ⊢
      exact buildProjectsLoop_ran_ok b configuration platform
        (ToConfig configuration platform) prepare runOk _ _ hnone

/-- Witness for C2: with the fixture Android builder and a `Run` that always
fails, the pass aborts with `andCmd` as the failing command, and the theorem
applied there yields the failure of that command. -/
theorem BuildAllProjects_failure_semantics_witness :
    ((fun (_ : BuildCommand) => false) andCmd) = false :=
  ((BuildAllProjects_failure_semantics bAnd "Debug" "AnyCPU" (fun _ c => c)
    (fun _ => false)).2.1 andCmd (by decide)).1

/-- Replace-or-append insertion never produces the empty map. -/
theorem insertAssoc_ne_nil {κ α : Type} [DecidableEq κ] (m : List (κ × α)) (k : κ) (v : α) :
    insertAssoc m k v ≠ [] := by
  cases m with
  | nil => simp [insertAssoc]
  | cons kv rest =>
    by_cases h : kv.1 = k <;> simp [insertAssoc, h]

/-- Lookup after inserting at the same key. -/
theorem lookupAssoc_insertAssoc_self {κ α : Type} [DecidableEq κ]
    (m : List (κ × α)) (k : κ) (v : α) :
    lookupAssoc (insertAssoc m k v) k = some v := by
  induction m with
  | nil => simp [insertAssoc, lookupAssoc]
  | cons kv rest ih =>
    by_cases h : kv.1 = k
    · simp [insertAssoc, h, lookupAssoc]
    · simp [insertAssoc, h, lookupAssoc, ih]

/-- Lookup after inserting at a different key. -/
theorem lookupAssoc_insertAssoc_ne {κ α : Type} [DecidableEq κ]
    (m : List (κ × α)) (k k2 : κ) (v : α) (hne : k2 ≠ k) :
    lookupAssoc (insertAssoc m k v) k2 = lookupAssoc m k2 := by
  have hne2 : ¬ (k = k2) := fun hh => hne hh.symm
  induction m with
  | nil => simp [insertAssoc, lookupAssoc, hne2]
  | cons kv rest ih =>
    by_cases h : kv.1 = k
    · subst h
      have hne3 : ¬ (kv.1 = k2) := hne2
      simp [insertAssoc, lookupAssoc, hne3]
    · simp only [insertAssoc, h, if_false]
      by_cases h2 : kv.1 = k2 <;> simp [lookupAssoc, h2, ih]

/-- Folding the found entries into a base map yields the empty map only when
both were empty. -/
theorem insertHits_eq_nil (base hits : List (OutputType × String)) :
    insertHits base hits = [] → base = [] ∧ hits = [] := by
  induction hits generalizing base with
  | nil => intro h; exact ⟨h, rfl⟩
  | cons kv rest ih =>
    intro h
    rw [insertHits] at h
    simp only [List.foldl_cons] at h
    have := (ih (insertAssoc base kv.1 kv.2) h).1
    exact absurd this (insertAssoc_ne_nil base kv.1 kv.2)

/-- Unfolding `typeHasArtifact` over the head of the project list. -/
theorem typeHasArtifact_cons (b : Builder) (probes : Probes) (solutionConfig : String)
    (proj : Project) (rest : List Project) (t : ProjectType) :
    typeHasArtifact b probes solutionConfig (proj :: rest) t ↔
      ((proj.ProjectType = t ∧
        ∃ key projectConfig hits,
          lookupAssoc proj.ConfigMap solutionConfig = some key ∧
          lookupAssoc proj.Configs key = some projectConfig ∧
          projectHits b probes proj projectConfig = Except.ok hits ∧ hits ≠ []) ∨
      typeHasArtifact b probes solutionConfig rest t) := by
  simp [typeHasArtifact, List.exists_mem_cons_iff]

/-- Characterization of the `CollectOutput` loop: it preserves the invariant
that no project type maps to an empty artifact map, and a type is a key of
the result exactly when it was already a key of the accumulator or some
scanned project of that type contributed at least one found artifact. -/
theorem collectLoop_char (b : Builder) (probes : Probes) (solutionConfig : String) :
    ∀ (projs : List Project) (acc m : OutputMap),
      (∀ t am, lookupAssoc acc t = some am → am ≠ []) →
      collectLoop b probes solutionConfig projs acc = Except.ok m →
      (∀ t am, lookupAssoc m t = some am → am ≠ []) ∧
      (∀ t, (lookupAssoc m t).isSome ↔
        ((lookupAssoc acc t).isSome ∨ typeHasArtifact b probes solutionConfig projs t)) := by
  intro projs
  induction projs with
  | nil =>
    intro acc m hacc hok
    simp only [collectLoop, Except.ok.injEq] at hok
    subst hok
    refine ⟨hacc, fun t => ?_⟩
    simp [typeHasArtifact]
  | cons proj rest ih =>
    intro acc m hacc hok
    cases hc1 : lookupAssoc proj.ConfigMap solutionConfig with
    | none =>
      simp only [collectLoop, hc1] at hok
      obtain ⟨h1, h2⟩ := ih acc m hacc hok
      refine ⟨h1, fun t => ?_⟩
      rw [h2 t, typeHasArtifact_cons]
      constructor
      · rintro (hs | hr)
        · exact Or.inl hs
        · exact Or.inr (Or.inr hr)
      · rintro (hs | ⟨ht, key, pc, hits, hk, hrest⟩ | hr)
        · exact Or.inl hs
        · rw [hc1] at hk; cases hk
        · exact Or.inr hr
    | some key =>
      cases hc2 : lookupAssoc proj.Configs key with
      | none =>
        simp only [collectLoop, hc1, hc2] at hok
        obtain ⟨h1, h2⟩ := ih acc m hacc hok
        refine ⟨h1, fun t => ?_⟩
        rw [h2 t, typeHasArtifact_cons]
        constructor
        · rintro (hs | hr)
          · exact Or.inl hs
          · exact Or.inr (Or.inr hr)
        · rintro (hs | ⟨ht, key2, pc, hits, hk, hpc, hrest⟩ | hr)
          · exact Or.inl hs
          · rw [hc1] at hk
            cases hk
            rw [hc2] at hpc
            cases hpc
          · exact Or.inr hr
      | some projectConfig =>
        cases hh : projectHits b probes proj projectConfig with
        | error e =>
          simp only [collectLoop, hc1, hc2, hh] at hok
          simp at hok
        | ok hits =>
          simp only [collectLoop, hc1, hc2, hh] at hok
          by_cases hp : (insertHits ((lookupAssoc acc proj.ProjectType).getD []) hits).length > 0
          · rw [if_pos hp] at hok
            have hptm : insertHits ((lookupAssoc acc proj.ProjectType).getD []) hits ≠ [] := by
              intro hnil
              rw [hnil] at hp
              simp at hp
            have hinv : ∀ t am, lookupAssoc (insertAssoc acc proj.ProjectType
                (insertHits ((lookupAssoc acc proj.ProjectType).getD []) hits)) t =
                some am → am ≠ [] := by
              intro t am hl
              by_cases ht : t = proj.ProjectType
              · subst ht
                rw [lookupAssoc_insertAssoc_self] at hl
                cases hl
                exact hptm
              · rw [lookupAssoc_insertAssoc_ne _ _ _ _ ht] at hl
                exact hacc t am hl
            obtain ⟨h1, h2⟩ := ih _ m hinv hok
            refine ⟨h1, fun t => ?_⟩
            rw [h2 t, typeHasArtifact_cons]
            by_cases ht : t = proj.ProjectType
            · subst ht
              rw [lookupAssoc_insertAssoc_self]
              simp only [Option.isSome_some, true_or, true_iff]
              by_cases hb : hits = []
              · left
                cases hbase : lookupAssoc acc proj.ProjectType with
                | none =>
                  exfalso
                  rw [hb, hbase] at hp
                  simp [insertHits] at hp
                | some am => simp
              · right
                left
                exact ⟨by trivial, key, projectConfig, hits, hc1, hc2, hh, hb⟩
            · rw [lookupAssoc_insertAssoc_ne _ _ _ _ ht]
              constructor
              · rintro (hs | hr)
                · exact Or.inl hs
                · exact Or.inr (Or.inr hr)
              · rintro (hs | ⟨hD, hrest⟩ | hr)
                · exact Or.inl hs
                · exact absurd hD.symm ht
                · exact Or.inr hr
          · rw [if_neg hp] at hok
            have hlen : (insertHits ((lookupAssoc acc proj.ProjectType).getD []) hits).length = 0 :=
              Nat.eq_zero_of_not_pos hp
            have hnil := List.eq_nil_of_length_eq_zero hlen
            have hhitsnil : hits = [] := (insertHits_eq_nil _ _ hnil).2
            obtain ⟨h1, h2⟩ := ih acc m hacc hok
            refine ⟨h1, fun t => ?_⟩
            rw [h2 t, typeHasArtifact_cons]
            constructor
            · rintro (hs | hr)
              · exact Or.inl hs
              · exact Or.inr (Or.inr hr)
            · rintro (hs | ⟨hD, key2, pc2, hits2, hk, hpc, hh2, hne⟩ | hr)
              · exact Or.inl hs
              · exfalso
                rw [hc1] at hk
                cases hk
                rw [hc2] at hpc
                cases hpc
                rw [hh] at hh2
                cases hh2
                exact hne hhitsnil
              · exact Or.inr hr

/-- C8: whenever `CollectOutput` returns without error, a project type is a
key of the returned output map iff at least one artifact probe for a
(config-resolved) buildable project of that type returned a non-empty path,
and no project type is ever mapped to an empty artifact map. -/
theorem CollectOutput_keys_iff_artifact_found (b : Builder)
    (configuration platform : String) (probes : Probes) (m : OutputMap)
    (h : b.CollectOutput configuration platform probes = Except.ok m) :
    (∀ t am, lookupAssoc m t = some am → am ≠ []) ∧
    (∀ t, (lookupAssoc m t).isSome ↔
      typeHasArtifact b probes (ToConfig configuration platform)
        (b.buildableProjects configuration platform).1 t) := by
  obtain ⟨h1, h2⟩ := collectLoop_char b probes (ToConfig configuration platform)
    (b.buildableProjects configuration platform).1 [] m
    (by intro t am hl; simp [lookupAssoc] at hl) h
  refine ⟨h1, fun t => ?_⟩
  rw [h2 t]
  simp [lookupAssoc]

/-- Witness for C8: for the Android fixture under `probes8`, `CollectOutput`
returns `m8`, and the theorem applied there yields that the Android key is
present (the apk probe found a path). -/
theorem CollectOutput_keys_iff_artifact_found_witness :
    (lookupAssoc m8 ProjectType.Android).isSome = true :=
  ((CollectOutput_keys_iff_artifact_found bAnd "Debug" "AnyCPU" probes8 m8 rfl).2
    ProjectType.Android).mpr
    ⟨projAnd, by decide, rfl, "DebKey", pcAnd, [(OutputType.APK, "app.apk")],
      by decide, by decide, rfl, by decide⟩
